import Mathlib

/-!
Verification of the `cmterm` terminal-dashboard subsystem of the
InfiltrationEngine-CustomMissions-Codeless repository.

The Rust sources under `src/cmterm/` are shallowly embedded here:
* `ring_buffer.rs` — `RingBuffer` with its `push` / `peek_last_n`
  (usize index arithmetic is modelled as arithmetic modulo 2^64);
* `input.rs` — the `Input` channel: its request-state record, the key
  wait loops `_wait_for_string` / `_wait_for_password` / `_wait_for_enter`,
  the `_read_char` disabled check, and the drain/reset in `request_input`;
* `log.rs` — line formatting and disk-mirror handling of `_log` /
  `_file_log`, and the thread-default logger `Log::set` / `Log::get`;
* `render.rs` — `log_widths` column partitioning and the cursor placement;
* `mod.rs` — the priority gate of the render loop over the two channels.

Rust `String`s are modelled as `List Char`; `usize` as `Nat` with explicit
`% 2 ^ 64` where wrap-around matters.  Blocking loops are modelled as
functions over the finite list of events the loop observes; a request that
has not yet seen its terminating key yields `none`.
-/

/-- Model of `usize` wrap-around: `usize::overflowing_sub` works modulo `2 ^ 64`. -/
def USIZE : Nat := 2 ^ 64

/-! Section: ring_buffer.rs -/

/-- Source `RingBuffer<T, S>`: an array of `S` slots plus a write cursor.
The capacity `S` is passed to the operations (it is a const generic in the
source); `inner` is kept as a list of length `S`. -/
structure RingBuffer (T : Type) where
  inner : List T
  position : Nat
deriving DecidableEq

/-- Source `RingBuffer::new`: `S` default-initialized slots, cursor at 0. -/
def RingBuffer.new (T : Type) [Inhabited T] (S : Nat) : RingBuffer T :=
  { inner := List.replicate S default, position := 0 }

/-- Source `RingBuffer::push`: advance the cursor modulo `S`, then overwrite that slot. -/
def RingBuffer.push {T : Type} (S : Nat) (rb : RingBuffer T) (element : T) : RingBuffer T :=
  let pos := (rb.position + 1) % S
  { inner := rb.inner.set pos element, position := pos }

/-- Source `RingBuffer::peek_last_n`: for `i in 0..n`, read slot
`(position.overflowing_sub(i)) % S`; the overflowing usize subtraction is
`(position + (2^64 - i)) % 2^64` for `i ≤ 2^64`. -/
def RingBuffer.peek_last_n {T : Type} [Inhabited T] (S : Nat) (rb : RingBuffer T) (n : Nat) :
    List T :=
  (List.range n).map (fun i => rb.inner.getD ((rb.position + (USIZE - i)) % USIZE % S) default)

/-- A sequence of pushes, oldest first (repeated `RingBuffer::push`). -/
def RingBuffer.pushAll {T : Type} (S : Nat) (rb : RingBuffer T) (xs : List T) : RingBuffer T :=
  xs.foldl (RingBuffer.push S) rb

/-- The `i`-th most recently pushed value of `xs` (`i = 0` is the newest);
`default` beyond the available pushes, matching a never-written slot. -/
def nthLast {T : Type} [Inhabited T] (xs : List T) (i : Nat) : T :=
  xs.reverse.getD i default

/-! Section: input.rs — data model -/

/-- Source `console::Key`, restricted to the constructors `input.rs` distinguishes. -/
inductive Key where
  | char (c : Char)
  | enter
  | backspace
  | other
deriving DecidableEq

/-- Source `_InputData`: the shared request state behind `Input.input_state`. -/
structure InputData where
  input_pos : Nat
  input_buffer : List Char
  input_prompt : List Char
  input_requester : List Char
deriving DecidableEq

/-- One observation made by `Input::_read_char`: the key received from the
channel together with the value `is_disabled()` returned at the check. -/
structure KeyEv where
  key : Key
  disabled : Bool
deriving DecidableEq

/-- Source `Input::_read_char`: returns the key, or `none` when the disabled flag
was observed set (the key is then discarded). -/
def read_char (ev : KeyEv) : Option Key :=
  if ev.disabled then none else some ev.key

/-- The state reset performed inside `Input::request_input` before the wait
loop runs: requester and prompt stored, cursor 0, empty buffer. -/
def reset_data (requester prompt : List Char) : InputData :=
  { input_requester := requester
    input_pos := 0
    input_prompt := prompt
    input_buffer := [] }

/-! Section: input.rs — the wait loops

Each loop is modelled over the finite list of `_read_char` observations it
makes; `none` as result means the loop is still blocked (no terminating
`Enter` was observed yet). -/

/-- Source `Input::_wait_for_string`: printable char appends to the buffer and
advances the cursor; backspace pops the buffer and, when something was
popped, retreats the cursor; `Enter` breaks and the buffer is returned. -/
def waitForString (d : InputData) : List KeyEv → InputData × Option (List Char)
  | [] => (d, none)
  | ev :: rest =>
    match read_char ev with
    | none => waitForString d rest
    | some k =>
      match k with
      | .char c =>
        waitForString
          { d with input_buffer := d.input_buffer ++ [c], input_pos := d.input_pos + 1 } rest
      | .enter => (d, some d.input_buffer)
      | .backspace =>
        let popped := d.input_buffer.getLast?
        waitForString
          { d with
            input_buffer := d.input_buffer.dropLast
            input_pos := if popped.isSome then d.input_pos - 1 else d.input_pos } rest
      | .other => waitForString d rest

/-- Source `Input::_wait_for_enter`: only `Enter` terminates, every other key is
ignored; the returned string is empty. -/
def waitForEnter (d : InputData) : List KeyEv → InputData × Option (List Char)
  | [] => (d, none)
  | ev :: rest =>
    match read_char ev with
    | some .enter => (d, some [])
    | _ => waitForEnter d rest

/-- Source `Input::_wait_for_password`: a printable char pushes a mask char `*`
onto the displayed buffer and the real char onto the shadow `password`;
backspace pops the displayed buffer and, when something was popped, retreats
the cursor and pops the shadow; `Enter` breaks — and the function returns a
clone of `input_buffer` (the mask characters), not `password`. -/
def waitForPassword (d : InputData) (password : List Char) :
    List KeyEv → InputData × List Char × Option (List Char)
  | [] => (d, password, none)
  | ev :: rest =>
    match read_char ev with
    | none => waitForPassword d password rest
    | some k =>
      match k with
      | .char c =>
        waitForPassword
          { d with input_buffer := d.input_buffer ++ ['*'], input_pos := d.input_pos + 1 }
          (password ++ [c]) rest
      | .enter => (d, password, some d.input_buffer)
      | .backspace =>
        let popped := d.input_buffer.getLast?
        waitForPassword
          { d with
            input_buffer := d.input_buffer.dropLast
            input_pos := if popped.isSome then d.input_pos - 1 else d.input_pos }
          (if popped.isSome then password.dropLast else password) rest
      | .other => waitForPassword d password rest

/-! Section: input.rs — request_input and the channel queue -/

/-- The wait-loop argument `input_fn` of `Input::request_input`; the three
callers pass `_wait_for_string`, `_wait_for_password`, `_wait_for_enter`. -/
inductive Mode where
  | string
  | password
  | enterOnly
deriving DecidableEq

/-- Dispatch on the `input_fn` argument; the shadow password accumulator is
only used in password mode. -/
def run_mode : Mode → InputData → List KeyEv → InputData × List Char × Option (List Char)
  | .string, d, evs =>
    let r := waitForString d evs
    (r.1, [], r.2)
  | .password, d, evs => waitForPassword d [] evs
  | .enterOnly, d, evs =>
    let r := waitForEnter d evs
    (r.1, [], r.2)

/-- Source `input_recv.try_iter().count()` at the top of `Input::request_input`:
consumes every key currently queued on the receive endpoint and yields how
many there were. -/
def drain_pending (q : List Key) : List Key × Nat := ([], q.length)

/-- An `Input` channel as seen by `request_input`: the keys already queued
on its receive endpoint, and the shared request state. -/
structure Channel where
  queue : List Key
  data : InputData
  inputting : Bool
deriving DecidableEq

/-- Source `Input::request_input`: drain the queue, then reset the request state,
set the inputting flag, and run the wait loop over the keys it goes on to
receive (whatever is still queued, then the fresh arrivals); finally clear
the flag.  Returns the updated channel, the shadow password, and the loop
result. -/
def request_input (ch : Channel) (requester prompt : List Char) (mode : Mode)
    (arrivals : List KeyEv) : Channel × List Char × Option (List Char) :=
  let drained := drain_pending ch.queue
  let d0 := reset_data requester prompt
  let consumed := (drained.1.map (fun k => KeyEv.mk k false)) ++ arrivals
  let r := run_mode mode d0 consumed
  ({ queue := [], data := r.1, inputting := false }, r.2.1, r.2.2)

/-! Section: input.rs — queue-level channel semantics for the disable gate

`wait_for_enabled` parks in one-second intervals while `is_disabled()`;
only once enabled does the loop block in `recv`.  We model the channel with
its pending-key queue and drive it by environment events (a key delivered
by the fan-out thread, or the render thread toggling the disabled flag);
after each event the loop consumes as many queued keys as it can without
blocking: none while disabled or once the request has completed. -/

/-- In-flight request state for the queue-level model. -/
structure ReqState where
  d : InputData
  password : List Char
  result : Option (List Char)
deriving DecidableEq

/-- The per-key body of the corresponding wait loop (the `match` on the key
inside `_wait_for_string` / `_wait_for_password` / `_wait_for_enter`). -/
def req_step (m : Mode) (s : ReqState) (k : Key) : ReqState :=
  match m with
  | .string =>
    match k with
    | .char c =>
      { s with d := { s.d with
          input_buffer := s.d.input_buffer ++ [c], input_pos := s.d.input_pos + 1 } }
    | .enter => { s with result := some s.d.input_buffer }
    | .backspace =>
      let popped := s.d.input_buffer.getLast?
      { s with d := { s.d with
          input_buffer := s.d.input_buffer.dropLast
          input_pos := if popped.isSome then s.d.input_pos - 1 else s.d.input_pos } }
    | .other => s
  | .password =>
    match k with
    | .char c =>
      { s with
        d := { s.d with
          input_buffer := s.d.input_buffer ++ ['*'], input_pos := s.d.input_pos + 1 }
        password := s.password ++ [c] }
    | .enter => { s with result := some s.d.input_buffer }
    | .backspace =>
      let popped := s.d.input_buffer.getLast?
      { s with
        d := { s.d with
          input_buffer := s.d.input_buffer.dropLast
          input_pos := if popped.isSome then s.d.input_pos - 1 else s.d.input_pos }
        password := if popped.isSome then s.password.dropLast else s.password }
    | .other => s
  | .enterOnly =>
    match k with
    | .enter => { s with result := some [] }
    | _ => s

/-- A channel with an in-flight request, its receive queue, and the
disabled flag written by the render thread. -/
structure LiveChannel where
  mode : Mode
  queue : List Key
  disabled : Bool
  req : ReqState
deriving DecidableEq

/-- Run the wait loop until it blocks: while enabled, not yet completed and
keys are queued, pop the next key and process it (`wait_for_enabled`
prevents any consumption while disabled; a completed request consumes
nothing further).  `fuel` bounds the recursion by the queue length. -/
def consume_ready : Nat → LiveChannel → LiveChannel
  | 0, s => s
  | fuel + 1, s =>
    if s.disabled ∨ s.req.result.isSome then s
    else
      match s.queue with
      | [] => s
      | k :: rest =>
        consume_ready fuel { s with queue := rest, req := req_step s.mode s.req k }

/-- One environment event for a `LiveChannel`. -/
inductive ChEvent where
  | key (k : Key)
  | set_disabled (b : Bool)
deriving DecidableEq

/-- Deliver one event and let the loop run until it blocks again:
a key is appended to the receive queue (`Sender::send`); the render thread
writes the disabled flag via `set_disabled`. -/
def ch_step (s : LiveChannel) (e : ChEvent) : LiveChannel :=
  match e with
  | .key k =>
    let s := { s with queue := s.queue ++ [k] }
    consume_ready s.queue.length s
  | .set_disabled b =>
    let s := { s with disabled := b }
    consume_ready s.queue.length s

/-- A whole event trace. -/
def ch_run (s : LiveChannel) (es : List ChEvent) : LiveChannel :=
  es.foldl ch_step s

/-! Section: render.rs -/

/-- The loop body of `Renderer::log_widths`: each log gets
`columns / n` columns, plus one while the remainder lasts. -/
def log_widths_go : Nat → Nat → Nat → List Nat
  | 0, _, _ => []
  | k + 1, width_equal, width_remainder =>
    if 0 < width_remainder then
      (width_equal + 1) :: log_widths_go k width_equal (width_remainder - 1)
    else
      width_equal :: log_widths_go k width_equal width_remainder

/-- Source `Renderer::log_widths` over `n` logs and `columns` terminal columns. -/
def log_widths (n : Nat) (columns : Nat) : List Nat :=
  log_widths_go n (columns / n) (columns % n)

/-- The cursor column placed by `Renderer::render` while a request is
active: `input_pos + 2 + prompt length` (`render.rs` line 243). -/
def render_cursor_col (d : InputData) : Nat :=
  d.input_pos + 2 + d.input_prompt.length

/-! Section: mod.rs — the priority gate of the render loop -/

/-- One iteration of `Manager::render_loop` after its `recv_timeout`
returns: sample `term_input_highp.is_inputting()`, store it into
`term_input_lowp.set_disabled`, then render the frame with that flag in
effect.  Returns the new low-priority disabled flag and the value it had
during the render of this frame. -/
def render_loop_iter (_lowp_disabled : Bool) (highp_in_use : Bool) : Bool × Bool :=
  let lowp_disabled := highp_in_use
  (lowp_disabled, lowp_disabled)

/-- The render loop over a list of per-iteration samples of the
high-priority `is_inputting` flag: final low-priority disabled
flag, and the flag in effect during each rendered frame. -/
def render_loop_run (lowp_disabled : Bool) : List Bool → Bool × List Bool
  | [] => (lowp_disabled, [])
  | s :: rest =>
    let it := render_loop_iter lowp_disabled s
    let r := render_loop_run it.1 rest
    (r.1, it.2 :: r.2)

/-! Section: log.rs — append and the disk mirror -/

/-- An opaque filesystem error (the payload of `io::Error` is never
inspected by `log.rs`). -/
inductive FsError where
  | fsFail
deriving DecidableEq

/-- The disk-mirror file: its current contents. -/
structure MirrorFile where
  contents : List Char
deriving DecidableEq

/-- Source `Log::_file_log`: given the outcome of `get_disk_log` (an error, no
mirror configured, or an open file) and whether the single `f.write(msg)`
succeeds, produce the resulting mirror contents.  Every failure is
swallowed: an open error or a write failure leaves no trace in the return
type. -/
def file_log (open_result : Except FsError (Option MirrorFile)) (write_ok : Bool)
    (msg : List Char) : Option MirrorFile :=
  match open_result with
  | .ok (some f) => if write_ok then some ⟨f.contents ++ msg⟩ else some ⟨f.contents⟩
  | .ok none => none
  | .error _ => none

/-- Source `console::measure_text_width` of the already-styled level tag.  ANSI
escape stripping is outside the model: the tag is modelled as its visible
characters, so the width is its length. -/
def measure_text_width (s : List Char) : Nat := s.length

/-- Source `str::replace('\t', "  ")` over the characters of a formatted line. -/
def tab_expand (l : List Char) : List Char :=
  (l.map (fun c => if c = '\t' then [' ', ' '] else [c])).flatten

/-- Source `str::lines()`: split on newline characters, without a trailing empty
line for a trailing newline (`"".lines()` is empty). -/
def rust_lines (msg : List Char) : List (List Char) :=
  let parts := msg.splitOn '\n'
  match parts.getLast? with
  | some [] => parts.dropLast
  | _ => parts

/-- Source `LOG_CAPACITY`: the `RingBuffer<String, 256>` inside `_TerminalLogData`. -/
def LOG_CAPACITY : Nat := 256

/-- The in-memory half of `Log::_log`: format every line of the message
with the styled level tag (continuation lines get blank padding of the
tag width), expand tabs to two spaces, and push each resulting line. -/
def log_lines_effect (msg pfx : List Char) (styler : List Char → List Char)
    (lines : RingBuffer (List Char)) : RingBuffer (List Char) :=
  let pfx_empty := List.replicate (measure_text_width pfx) ' '
  (((rust_lines msg).foldl
    (fun (acc : RingBuffer (List Char) × List Char) line =>
      (RingBuffer.push LOG_CAPACITY acc.1 (tab_expand (acc.2 ++ [' '] ++ styler line)),
        pfx_empty))
    (lines, pfx))).1

/-- Source `_TerminalLogData` (the title and mirror path play no role in the
properties proved here beyond being carried along). -/
structure TerminalLogData where
  title : List Char
  lines : RingBuffer (List Char)
  disk_log_path : Option (List Char)
deriving DecidableEq

/-- Source `Log::_log`: first `_file_log(msg)` (best effort, outcome discarded),
then push the styled lines into the ring buffer.  The function is total —
no error can reach the caller. -/
def log_append (open_result : Except FsError (Option MirrorFile)) (write_ok : Bool)
    (msg pfx : List Char) (styler : List Char → List Char) (data : TerminalLogData) :
    TerminalLogData × Option MirrorFile :=
  let mirror := file_log open_result write_ok msg
  ({ data with lines := log_lines_effect msg pfx styler data.lines }, mirror)

/-! Section: log.rs — the thread-default logger -/

/-- Logs are shared as `Arc<Log>`; `Arc::ptr_eq` is pointer identity, so a
log is modelled by an identity token. -/
abbrev LogId := Nat

/-- Source `Log::set`: on an unbound thread store the binding; rebinding the same
log (pointer equality) returns silently; rebinding a different log leaves
the binding unchanged and emits the warning line on the new log then the
old log (the returned list is the recipients of the warning in order). -/
def thread_logger_set (binding : Option LogId) (toLog : LogId) : Option LogId × List LogId :=
  match binding with
  | some s => if toLog = s then (some s, []) else (some s, [toLog, s])
  | none => (some toLog, [])

/-- Source `Log::get`: the bound log, or a panic on an unbound thread. -/
def thread_logger_get (binding : Option LogId) : Except (List Char) LogId :=
  match binding with
  | some l => .ok l
  | none => .error "Attempt to get log on thread with no initialized log!".data

/-! Section: theorems -/

/-- Claim C1: the spec says `requestSecret` returns the real characters the
user typed, masked only on screen.  The code does not: at the failing input
(keys a, b, c, Enter, channel enabled throughout) `_wait_for_password`
returns a clone of the displayed mask buffer `***` while the real
characters `abc` sit in the never-returned shadow `password`. -/
theorem c1_password_returns_mask :
    (waitForPassword (reset_data [] []) []
        [⟨.char 'a', false⟩, ⟨.char 'b', false⟩, ⟨.char 'c', false⟩, ⟨.enter, false⟩]).2.2
      = some ['*', '*', '*'] ∧
    (waitForPassword (reset_data [] []) []
        [⟨.char 'a', false⟩, ⟨.char 'b', false⟩, ⟨.char 'c', false⟩, ⟨.enter, false⟩]).2.1
      = ['a', 'b', 'c'] ∧
    (waitForPassword (reset_data [] []) []
        [⟨.char 'a', false⟩, ⟨.char 'b', false⟩, ⟨.char 'c', false⟩, ⟨.enter, false⟩]).2.2
      ≠ some ['a', 'b', 'c'] := by
  decide

/-- Claim C6: in secret mode, after a, b, c and one backspace the displayed
buffer is exactly two mask characters and the retained secret is ab; and a
backspace on an empty buffer changes nothing. -/
theorem c6_secret_backspace :
    (waitForPassword (reset_data [] []) []
        [⟨.char 'a', false⟩, ⟨.char 'b', false⟩, ⟨.char 'c', false⟩,
          ⟨.backspace, false⟩]).1.input_buffer = ['*', '*'] ∧
    (waitForPassword (reset_data [] []) []
        [⟨.char 'a', false⟩, ⟨.char 'b', false⟩, ⟨.char 'c', false⟩,
          ⟨.backspace, false⟩]).2.1 = ['a', 'b'] ∧
    waitForPassword (reset_data [] []) [] [⟨.backspace, false⟩]
      = (reset_data [] [], [], none) := by
  decide

/-! Section: Ring-buffer lemmas (toward claim C2) -/

theorem nthLast_append_singleton_zero {T : Type} [Inhabited T] (xs : List T) (y : T) :
    nthLast (xs ++ [y]) 0 = y := by
  simp [nthLast]

theorem nthLast_append_singleton_succ {T : Type} [Inhabited T] (xs : List T) (y : T) (j : Nat) :
    nthLast (xs ++ [y]) (j + 1) = nthLast xs j := by
  simp [nthLast]

theorem pushAll_invariant {T : Type} [Inhabited T] (S : Nat) (hS : 0 < S) (xs : List T) :
    (RingBuffer.pushAll S (RingBuffer.new T S) xs).position = xs.length % S ∧
    (RingBuffer.pushAll S (RingBuffer.new T S) xs).inner.length = S ∧
    ∀ i, i < S →
      (RingBuffer.pushAll S (RingBuffer.new T S) xs).inner.getD
          (((xs.length + S) - i) % S) default
        = nthLast xs i := by
  induction xs using List.reverseRecOn with
  | nil =>
    refine ⟨by simp [RingBuffer.pushAll, RingBuffer.new],
      by simp [RingBuffer.pushAll, RingBuffer.new], ?_⟩
    intro i hi
    simp [RingBuffer.pushAll, RingBuffer.new, nthLast]
  | append_singleton xs y ih =>
    obtain ⟨hpos, hlen, hslot⟩ := ih
    have hL : (xs ++ [y]).length = xs.length + 1 := by simp
    have hfold : RingBuffer.pushAll S (RingBuffer.new T S) (xs ++ [y])
        = RingBuffer.push S (RingBuffer.pushAll S (RingBuffer.new T S) xs) y := by
      simp [RingBuffer.pushAll, List.foldl_append]
    have hp : (xs.length % S + 1) % S = (xs.length + 1) % S := Nat.mod_add_mod _ _ _
    refine ⟨?_, ?_, ?_⟩
    · rw [hfold, hL, RingBuffer.push, hpos]
      exact hp
    · rw [hfold, RingBuffer.push]
      simpa using hlen
    · intro i hi
      rw [hfold, hL, RingBuffer.push, hpos, hp]
      rcases Nat.eq_zero_or_pos i with hi0 | hi1
      · subst hi0
        have hidx : ((xs.length + 1 + S) - 0) % S = (xs.length + 1) % S :=
          Nat.add_mod_right _ _
        rw [hidx, List.getD_eq_getElem?_getD, List.getElem?_set_self
          (by rw [hlen]; exact Nat.mod_lt _ hS)]
        simp [nthLast_append_singleton_zero]
      · -- i ≥ 1: the set slot is a different index
        have hne : ((xs.length + 1 + S) - i) % S ≠ (xs.length + 1) % S := by
          set a := xs.length + 1 with ha
          have h1 : (a + S) - i = a + (S - i) := by omega
          have h2 : (a + (S - i)) % S = (a % S + (S - i)) % S := (Nat.mod_add_mod _ _ _).symm
          intro hEq
          rw [h1, h2] at hEq
          have hr : a % S < S := Nat.mod_lt _ hS
          rcases Nat.lt_or_ge (a % S + (S - i)) S with hlt | hge
          · rw [Nat.mod_eq_of_lt hlt] at hEq
            omega
          · rw [Nat.mod_eq_sub_mod hge, Nat.mod_eq_of_lt (by omega)] at hEq
            omega
        rw [List.getD_eq_getElem?_getD, List.getElem?_set_ne hne.symm,
          ← List.getD_eq_getElem?_getD]
        obtain ⟨j, rfl⟩ : ∃ j, i = j + 1 := ⟨i - 1, by omega⟩
        have hidx : ((xs.length + 1 + S) - (j + 1)) = ((xs.length + S) - j) := by omega
        rw [hidx, hslot j (by omega), nthLast_append_singleton_succ]

theorem peek_index_eq (S pos i : Nat) (hS : 0 < S) (hdvd : S ∣ USIZE) (hpos : pos < S)
    (hi : i < S) :
    (pos + (USIZE - i)) % USIZE % S = ((pos + S) - i) % S := by
  have hU : 0 < USIZE := by norm_num [USIZE]
  have hSle : S ≤ USIZE := Nat.le_of_dvd hU hdvd
  obtain ⟨m, hm⟩ := hdvd
  rcases Nat.lt_or_ge pos i with hpi | hpi
  · -- pos < i : the subtraction wraps
    have hm1 : 1 ≤ m := by
      rcases Nat.eq_zero_or_pos m with h | h
      · rw [h, Nat.mul_zero] at hm
        omega
      · exact h
    have hmsplit : S * m = S * (m - 1) + S := by
      conv_lhs => rw [show m = (m - 1) + 1 by omega]
      ring
    have h1 : pos + (USIZE - i) = USIZE - (i - pos) := by omega
    have h2 : (USIZE - (i - pos)) % USIZE = USIZE - (i - pos) :=
      Nat.mod_eq_of_lt (by omega)
    have h3 : USIZE - (i - pos) = S * (m - 1) + (S - (i - pos)) := by omega
    rw [h1, h2, h3, Nat.mul_add_mod]
    have h4 : (pos + S) - i = S - (i - pos) := by omega
    rw [h4, Nat.mod_eq_of_lt (by omega)]
  · -- i ≤ pos : no wrap
    have h1 : pos + (USIZE - i) = USIZE + (pos - i) := by omega
    rw [h1, Nat.add_mod_left, Nat.mod_eq_of_lt (show pos - i < USIZE by omega)]
    have h2 : (pos + S) - i = (pos - i) + S := by omega
    rw [h2, Nat.add_mod_right]

theorem range_map_nthLast {T : Type} [Inhabited T] (xs : List T) (n : Nat)
    (hn : n ≤ xs.length) :
    (List.range n).map (fun i => nthLast xs i) = xs.reverse.take n := by
  apply List.ext_getElem
  · simp [hn]
  · intro i h1 h2
    simp only [List.getElem_map, List.getElem_range, List.getElem_take, nthLast]
    rw [List.getD_eq_getElem]

theorem peek_full {T : Type} [Inhabited T] (S : Nat) (hS : 0 < S) (hdvd : S ∣ USIZE)
    (xs : List T) (hlen : S ≤ xs.length) :
    RingBuffer.peek_last_n S (RingBuffer.pushAll S (RingBuffer.new T S) xs) S
      = (xs.drop (xs.length - S)).reverse := by
  obtain ⟨hpos, hlenI, hslot⟩ := pushAll_invariant S hS xs
  have hmapeq : ∀ i ∈ List.range S,
      (RingBuffer.pushAll S (RingBuffer.new T S) xs).inner.getD
          (((RingBuffer.pushAll S (RingBuffer.new T S) xs).position + (USIZE - i)) % USIZE % S)
          default
        = nthLast xs i := by
    intro i hi
    rw [List.mem_range] at hi
    rw [hpos, peek_index_eq S (xs.length % S) i hS hdvd (Nat.mod_lt _ hS) hi]
    have hidx : ((xs.length % S + S) - i) % S = ((xs.length + S) - i) % S := by
      have h1 : (xs.length % S + S) - i = xs.length % S + (S - i) := by omega
      have h2 : (xs.length + S) - i = xs.length + (S - i) := by omega
      rw [h1, h2, Nat.mod_add_mod]
    rw [hidx]
    exact hslot i hi
  rw [RingBuffer.peek_last_n, List.map_congr_left hmapeq, range_map_nthLast xs S hlen,
    List.take_reverse]

theorem peek_below_cap {T : Type} [Inhabited T] (S : Nat) (hS : 0 < S) (hdvd : S ∣ USIZE)
    (xs : List T) (k : Nat) (hxs : xs.length < S) (hk : k ≤ xs.length) :
    RingBuffer.peek_last_n S (RingBuffer.pushAll S (RingBuffer.new T S) xs) k
      = xs.reverse.take k := by
  obtain ⟨hpos, hlenI, hslot⟩ := pushAll_invariant S hS xs
  have hU : 0 < USIZE := by norm_num [USIZE]
  have hSle : S ≤ USIZE := Nat.le_of_dvd hU hdvd
  have hmapeq : ∀ i ∈ List.range k,
      (RingBuffer.pushAll S (RingBuffer.new T S) xs).inner.getD
          (((RingBuffer.pushAll S (RingBuffer.new T S) xs).position + (USIZE - i)) % USIZE % S)
          default
        = nthLast xs i := by
    intro i hi
    rw [List.mem_range] at hi
    have hiL : i ≤ xs.length := by omega
    rw [hpos, Nat.mod_eq_of_lt hxs]
    have h1 : xs.length + (USIZE - i) = USIZE + (xs.length - i) := by omega
    rw [h1, Nat.add_mod_left, Nat.mod_eq_of_lt (show xs.length - i < USIZE by omega),
      Nat.mod_eq_of_lt (show xs.length - i < S by omega)]
    have h2 : xs.length - i = ((xs.length + S) - i) % S := by
      have h3 : (xs.length + S) - i = (xs.length - i) + S := by omega
      rw [h3, Nat.add_mod_right, Nat.mod_eq_of_lt (by omega)]
    rw [h2]
    exact hslot i (by omega)
  rw [RingBuffer.peek_last_n, List.map_congr_left hmapeq, range_map_nthLast xs k hk]

/-! Section: Claim C2 -/

/-- Claim C2, counterexample: `peek_last_n` does not return the retained
values oldest-first.  With capacity 2 and pushes 1, 2 it returns the most
recent first: `[2, 1]`, not `[1, 2]`.  Moreover for a capacity that does
not divide `2^64` (here 3) even the returned multiset is wrong once the
cursor has wrapped: after pushes 1, 2, 3 the result is `[3, 3, 2]` — the
wrapped `usize` subtraction `(2^64 - 1) % 3 = 0` hits slot 0 instead of
slot 2, and the value 1 is missing entirely. -/
theorem c2_counterexample :
    RingBuffer.peek_last_n 2 (RingBuffer.pushAll 2 (RingBuffer.new Nat 2) [1, 2]) 2
      ≠ [1, 2] ∧
    RingBuffer.peek_last_n 2 (RingBuffer.pushAll 2 (RingBuffer.new Nat 2) [1, 2]) 2
      = [2, 1] ∧
    RingBuffer.peek_last_n 3 (RingBuffer.pushAll 3 (RingBuffer.new Nat 3) [1, 2, 3]) 3
      = [3, 3, 2] := by
  decide

/-- Claim C2, amended: for a capacity `S` dividing `2^64` (a power of two,
as in the only instantiation of the repository, `S = 256`), after `N ≥ S` pushes
`peek_last_n S` returns exactly the final `S` pushed values in reverse push
order (most recently pushed first); and after fewer than `S` pushes,
`peek_last_n k` for `k` not exceeding the number of pushes returns exactly
the `k` most recently pushed values, most recent first. -/
theorem c2_amended {T : Type} [Inhabited T] (S : Nat) (xs : List T)
    (hS : 0 < S) (hdvd : S ∣ USIZE) :
    (S ≤ xs.length →
      RingBuffer.peek_last_n S (RingBuffer.pushAll S (RingBuffer.new T S) xs) S
        = (xs.drop (xs.length - S)).reverse) ∧
    (∀ k, xs.length < S → k ≤ xs.length →
      RingBuffer.peek_last_n S (RingBuffer.pushAll S (RingBuffer.new T S) xs) k
        = xs.reverse.take k) := by
  constructor
  · intro hlen
    exact peek_full S hS hdvd xs hlen
  · intro k hxs hk
    exact peek_below_cap S hS hdvd xs k hxs hk

/-- Witness for `c2_amended` at capacity 4: five pushes then a full peek
give `[5, 4, 3, 2]`; three pushes then `peek_last_n 2` give `[3, 2]`. -/
theorem c2_amended_witness :
    RingBuffer.peek_last_n 4 (RingBuffer.pushAll 4 (RingBuffer.new Nat 4) [1, 2, 3, 4, 5]) 4
      = [5, 4, 3, 2] ∧
    RingBuffer.peek_last_n 4 (RingBuffer.pushAll 4 (RingBuffer.new Nat 4) [1, 2, 3]) 2
      = [3, 2] := by
  constructor
  · rw [(c2_amended 4 [1, 2, 3, 4, 5] (by decide) (by decide)).1 (by decide)]
    decide
  · rw [(c2_amended 4 [1, 2, 3] (by decide) (by decide)).2 2 (by decide) (by decide)]
    decide

/-! Section: Claim C7 -/

/-- Claim C7: rebinding the same log to an already-bound thread is an
idempotent no-op; rebinding a different log warns on both the new and the
old log while the original binding is retained (and the call returns
normally — its result type carries no failure); binding an unbound thread
stores the log; fetching an existing binding succeeds; fetching on a thread
with no binding is a fatal error. -/
theorem c7_thread_logger (l l2 : LogId) (h : l2 ≠ l) :
    thread_logger_set (some l) l = (some l, []) ∧
    thread_logger_set (some l) l2 = (some l, [l2, l]) ∧
    thread_logger_set none l = (some l, []) ∧
    thread_logger_get (some l) = .ok l ∧
    (thread_logger_get none).isOk = false := by
  refine ⟨by simp [thread_logger_set], by simp [thread_logger_set, h], rfl, rfl, rfl⟩

/-- Witness for `c7_thread_logger` at logs 0 and 1. -/
theorem c7_thread_logger_witness :
    thread_logger_set (some 0) 0 = (some 0, []) ∧
    thread_logger_set (some 0) 1 = (some 0, [1, 0]) ∧
    thread_logger_set none 0 = (some 0, []) ∧
    thread_logger_get (some 0) = .ok 0 ∧
    (thread_logger_get none).isOk = false :=
  c7_thread_logger 0 1 (by decide)

/-! Section: Claim C9 -/

theorem log_widths_go_eq (k e r : Nat) :
    log_widths_go k e r
      = List.replicate (min r k) (e + 1) ++ List.replicate (k - min r k) e := by
  induction k generalizing r with
  | zero => simp [log_widths_go]
  | succ k ih =>
    by_cases hr : 0 < r
    · rw [log_widths_go, if_pos hr, ih]
      have h1 : min r (k + 1) = min (r - 1) k + 1 := by omega
      rw [h1, List.replicate_succ, List.cons_append]
      have h2 : (k + 1) - (min (r - 1) k + 1) = k - min (r - 1) k := by omega
      rw [h2]
    · rw [log_widths_go, if_neg hr, ih]
      have h1 : min r (k + 1) = 0 := by omega
      have h2 : min r k = 0 := by omega
      simp [h1, h2, List.replicate_succ]

/-- Claim C9: for `n > 0` logs in a `w`-column terminal, the renderer
produces one width per log; the widths sum to `w`; the leftmost `w % n`
logs get `w / n + 1` columns and the remaining logs get `w / n`; hence
every log gets either `⌊w/n⌋` or `⌊w/n⌋ + 1` columns. -/
theorem c9_log_widths (n w : Nat) (hn : 0 < n) :
    (log_widths n w).length = n ∧
    (log_widths n w).sum = w ∧
    log_widths n w
      = List.replicate (w % n) (w / n + 1) ++ List.replicate (n - w % n) (w / n) ∧
    ∀ x ∈ log_widths n w, x = w / n ∨ x = w / n + 1 := by
  have hlt : w % n < n := Nat.mod_lt _ hn
  have hmin : min (w % n) n = w % n := by omega
  have heq : log_widths n w
      = List.replicate (w % n) (w / n + 1) ++ List.replicate (n - w % n) (w / n) := by
    rw [log_widths, log_widths_go_eq, hmin]
  refine ⟨?_, ?_, heq, ?_⟩
  · rw [heq]
    simp
    omega
  · rw [heq]
    simp [List.sum_replicate, smul_eq_mul]
    obtain ⟨d, hd⟩ : ∃ d, n = w % n + d := ⟨n - w % n, by omega⟩
    have hdq : n - w % n = d := by omega
    rw [hdq]
    calc w % n * (w / n + 1) + d * (w / n)
        = (w % n + d) * (w / n) + w % n := by ring
      _ = n * (w / n) + w % n := by rw [← hd]
      _ = w := Nat.div_add_mod w n
  · rw [heq]
    intro x hx
    rcases List.mem_append.mp hx with hx | hx
    · right
      exact (List.eq_of_mem_replicate hx)
    · left
      exact (List.eq_of_mem_replicate hx)

/-- Witness for `c9_log_widths`: 2 logs split an 80-column terminal 40/40
and an 81-column terminal 41/40. -/
theorem c9_log_widths_witness :
    log_widths 2 80 = [40, 40] ∧ log_widths 2 81 = [41, 40] := by
  constructor
  · rw [(c9_log_widths 2 80 (by decide)).2.2.1]
    decide
  · rw [(c9_log_widths 2 81 (by decide)).2.2.1]
    decide

/-! Section: Claim C5 -/

/-- Claim C5: on every render-loop iteration the low-priority channel
gets its disabled flag set, before the frame is rendered, to exactly the sampled
value of the requesting flag of the high-priority channel: the flags in effect
during the successive frames are exactly the successive samples, and after
the last iteration the flag equals the last sample (so one frame after the
high-priority request completes the low-priority channel is re-enabled). -/
theorem c5_priority_gate (lowp0 : Bool) (samples : List Bool) :
    (render_loop_run lowp0 samples).2 = samples ∧
    (render_loop_run lowp0 samples).1 = samples.getLastD lowp0 := by
  induction samples generalizing lowp0 with
  | nil => simp [render_loop_run]
  | cons s rest ih =>
    simp only [render_loop_run, render_loop_iter, List.getLastD_cons]
    exact ⟨by rw [(ih s).1], (ih s).2⟩

/-! Section: Claim C4 -/

/-- Claim C4: `request_input` first drains every key queued on the receive
endpoint from before the request, then resets buffer and cursor; the keys
the wait loop consumes are exactly the fresh arrivals, so the result and
the accumulated buffer are independent of the stale queue. -/
theorem c4_drain_before_start (q : List Key) (d : InputData) (b : Bool)
    (requester prompt : List Char) (mode : Mode) (arrivals : List KeyEv) :
    request_input ⟨q, d, b⟩ requester prompt mode arrivals
      = request_input ⟨[], d, b⟩ requester prompt mode arrivals ∧
    request_input ⟨q, d, b⟩ requester prompt mode arrivals
      = ({ queue := [],
           data := (run_mode mode (reset_data requester prompt) arrivals).1,
           inputting := false },
         (run_mode mode (reset_data requester prompt) arrivals).2.1,
         (run_mode mode (reset_data requester prompt) arrivals).2.2) := by
  exact ⟨rfl, rfl⟩

/-! Section: Claim C8 -/

/-- Claim C8: `_log` never fails observably.  Its in-memory effect — the
styled lines pushed into the ring buffer — is identical whatever the
outcome of opening or writing the disk mirror, and the mirror outcome is
swallowed (the function is total, no error reaches the caller). -/
theorem c8_append_never_fails (o1 o2 : Except FsError (Option MirrorFile))
    (w1 w2 : Bool) (msg pfx : List Char) (styler : List Char → List Char)
    (data : TerminalLogData) :
    (log_append o1 w1 msg pfx styler data).1 = (log_append o2 w2 msg pfx styler data).1 ∧
    (log_append o1 w1 msg pfx styler data).1.lines
      = log_lines_effect msg pfx styler data.lines ∧
    (log_append o1 w1 msg pfx styler data).1.title = data.title := by
  exact ⟨rfl, rfl, rfl⟩

/-! Section: Claim C3 -/

theorem consume_ready_disabled (n : Nat) (s : LiveChannel) (h : s.disabled = true) :
    consume_ready n s = s := by
  cases n with
  | zero => rfl
  | succ n => rw [consume_ready, if_pos (Or.inl h)]

/-- Claim C3, counterexample: a keystroke delivered while the channel is
disabled is not discarded.  Starting a string request, disabling, then
delivering the character x leaves x queued on the receive endpoint; after
re-enabling and delivering Enter, that very x is consumed and appears in
the result of the request. -/
theorem c3_counterexample :
    (ch_run
      { mode := .string, queue := [], disabled := false,
        req := { d := reset_data [] [], password := [], result := none } }
      [.set_disabled true, .key (.char 'x')]).queue = [.char 'x'] ∧
    (ch_run
      { mode := .string, queue := [], disabled := false,
        req := { d := reset_data [] [], password := [], result := none } }
      [.set_disabled true, .key (.char 'x'), .set_disabled false, .key .enter]).req.result
      = some ['x'] := by
  decide

/-- Claim C3, amended: while the disabled flag of an InputChannel is set it
consumes no key at all — the receive loop polls the enabled flag instead of
reading keys — but a keystroke delivered while disabled is queued on the
receive endpoint rather than discarded, and may be consumed once the
channel is re-enabled (a key whose `_read_char` check observes the flag set
is the only one discarded). -/
theorem c3_amended (s : LiveChannel) (k : Key) (h : s.disabled = true) :
    ch_step s (.key k) = { s with queue := s.queue ++ [k] } ∧
    ∀ n, consume_ready n s = s := by
  constructor
  · exact consume_ready_disabled _ _ h
  · intro n
    exact consume_ready_disabled n s h

/-- Witness for `c3_amended`: a disabled string-mode channel queues a
delivered z without consuming it. -/
theorem c3_amended_witness :
    ch_step
      { mode := .string, queue := [], disabled := true,
        req := { d := reset_data [] [], password := [], result := none } }
      (.key (.char 'z'))
      = { mode := .string, queue := [.char 'z'], disabled := true,
          req := { d := reset_data [] [], password := [], result := none } } := by
  have h := (c3_amended
    { mode := .string, queue := [], disabled := true,
      req := { d := reset_data [] [], password := [], result := none } }
    (.char 'z') rfl).1
  simpa using h

/-! Section: Claim C10 -/

theorem waitForString_pos_eq_len (evs : List KeyEv) (d : InputData)
    (h : d.input_pos = d.input_buffer.length) :
    (waitForString d evs).1.input_pos = (waitForString d evs).1.input_buffer.length := by
  induction evs generalizing d with
  | nil => simpa [waitForString] using h
  | cons ev rest ih =>
    rcases hrc : read_char ev with _ | k
    · simpa only [waitForString, hrc] using ih d h
    · cases k with
      | char c =>
        simp only [waitForString, hrc]
        exact ih _ (by simp [h])
      | enter => simpa only [waitForString, hrc] using h
      | backspace =>
        simp only [waitForString, hrc]
        apply ih
        by_cases hb : d.input_buffer.getLast?.isSome
        · simp only [hb, if_true, List.length_dropLast, h]
        · have hbuf : d.input_buffer = [] := by
            cases hbuf2 : d.input_buffer with
            | nil => rfl
            | cons a t =>
              rw [hbuf2] at hb
              simp at hb
          simp [hb, hbuf] at h ⊢
          exact h
      | other => simpa only [waitForString, hrc] using ih d h

theorem waitForPassword_pos_eq_len (evs : List KeyEv) (d : InputData) (pw : List Char)
    (h : d.input_pos = d.input_buffer.length) :
    (waitForPassword d pw evs).1.input_pos
      = (waitForPassword d pw evs).1.input_buffer.length := by
  induction evs generalizing d pw with
  | nil => simpa [waitForPassword] using h
  | cons ev rest ih =>
    rcases hrc : read_char ev with _ | k
    · simpa only [waitForPassword, hrc] using ih d pw h
    · cases k with
      | char c =>
        simp only [waitForPassword, hrc]
        exact ih _ _ (by simp [h])
      | enter => simpa only [waitForPassword, hrc] using h
      | backspace =>
        simp only [waitForPassword, hrc]
        apply ih
        by_cases hb : d.input_buffer.getLast?.isSome
        · simp only [hb, if_true, List.length_dropLast, h]
        · have hbuf : d.input_buffer = [] := by
            cases hbuf2 : d.input_buffer with
            | nil => rfl
            | cons a t =>
              rw [hbuf2] at hb
              simp at hb
          simp [hb, hbuf] at h ⊢
          exact h
      | other => simpa only [waitForPassword, hrc] using ih d pw h

/-- Claim C10: every request starts from cursor 0 and an empty buffer
(the reset in `request_input`), and in both plain and secret mode every
key-handling step preserves `input_pos = input_buffer.length` (a character
increments both, a backspace decrements both only on a non-empty buffer,
Enter changes neither); under that invariant the cursor column of the renderer,
`input_pos + 2 + prompt length` is `2 + prompt length + buffer length`,
the end of the displayed buffer. -/
theorem c10_cursor_invariant (d : InputData) (pw : List Char) (evs : List KeyEv)
    (h : d.input_pos = d.input_buffer.length) :
    (∀ requester prompt, (reset_data requester prompt).input_pos = 0 ∧
      (reset_data requester prompt).input_buffer = []) ∧
    (waitForString d evs).1.input_pos = (waitForString d evs).1.input_buffer.length ∧
    (waitForPassword d pw evs).1.input_pos
      = (waitForPassword d pw evs).1.input_buffer.length ∧
    render_cursor_col d = 2 + d.input_prompt.length + d.input_buffer.length := by
  refine ⟨fun requester prompt => ⟨rfl, rfl⟩,
    waitForString_pos_eq_len evs d h,
    waitForPassword_pos_eq_len evs d pw h, ?_⟩
  rw [render_cursor_col, h]
  omega

/-- Witness for `c10_cursor_invariant` on a fresh request processing an a
then a backspace. -/
theorem c10_cursor_invariant_witness :
    (reset_data [] []).input_pos = (reset_data [] []).input_buffer.length ∧
    (waitForString (reset_data [] []) [⟨.char 'a', false⟩, ⟨.backspace, false⟩]).1.input_pos
      = (waitForString (reset_data [] [])
          [⟨.char 'a', false⟩, ⟨.backspace, false⟩]).1.input_buffer.length ∧
    (waitForPassword (reset_data [] []) []
        [⟨.char 'a', false⟩, ⟨.backspace, false⟩]).1.input_pos
      = (waitForPassword (reset_data [] []) []
          [⟨.char 'a', false⟩, ⟨.backspace, false⟩]).1.input_buffer.length ∧
    render_cursor_col (reset_data [] [])
      = 2 + (reset_data [] []).input_prompt.length
          + (reset_data [] []).input_buffer.length :=
  ⟨rfl,
    (c10_cursor_invariant (reset_data [] []) []
      [⟨.char 'a', false⟩, ⟨.backspace, false⟩] rfl).2.1,
    (c10_cursor_invariant (reset_data [] []) []
      [⟨.char 'a', false⟩, ⟨.backspace, false⟩] rfl).2.2.1,
    (c10_cursor_invariant (reset_data [] []) []
      [⟨.char 'a', false⟩, ⟨.backspace, false⟩] rfl).2.2.2⟩
